import Mathlib

/-!
Verification of the `monotonic-clock` crate: a pausable monotonic stopwatch
(`InnerClock` in `src/clock.rs`) anchored to a wall-clock offset
(`Epoch` in `src/epoch.rs`).

Modelling conventions:
* a `Duration` is a number of nanoseconds, a natural number (Rust's
  `std::time::Duration` is non-negative);
* an `Instant` from the monotonic source is likewise a natural number;
  every operation that reads the monotonic clock in Rust takes the instant
  it reads as an explicit argument, and the guarantee that the source is
  non-decreasing across successive reads becomes an ordering hypothesis;
* `Instant::duration_since` saturates at zero (as in current `std`), so it
  is truncated subtraction on naturals; `checked_duration_since` returns
  `none` when the argument is later;
* `Duration` subtraction panics on underflow in Rust; a panic is modelled
  as `none`.
-/

namespace MonotonicClock

/-- `Instant::duration_since`: elapsed time from `s` to `t`, zero if `s` is
later (saturating, as in `std`). -/
def durationSince (t s : Nat) : Nat := t - s

/-- `Instant::checked_duration_since`: `none` when `s` is later than `t`. -/
def checkedDurationSince (t s : Nat) : Option Nat :=
  if s ≤ t then some (t - s) else none

/-- `Duration - Duration` in Rust panics on underflow; the panic is `none`. -/
def durSub (a b : Nat) : Option Nat :=
  if b ≤ a then some (a - b) else none

/-- `Epoch` (src/epoch.rs): a wall-clock offset, a duration since the UNIX
reference instant. -/
structure Epoch where
  off : Nat
deriving DecidableEq, Repr

/-- `Epoch::from` a duration. -/
def Epoch.fromDuration (d : Nat) : Epoch := ⟨d⟩

/-- `Epoch::from_zero`. -/
def Epoch.fromZero : Epoch := ⟨0⟩

/-- `impl Add for Epoch`. -/
def Epoch.add (a b : Epoch) : Epoch := ⟨a.off + b.off⟩

/-- `impl Add<Duration> for Epoch`. -/
def Epoch.addDuration (a : Epoch) (d : Nat) : Epoch := ⟨a.off + d⟩

/-- `impl Sub for Epoch`: `Epoch(self.0 - rhs.0)`, panics on underflow. -/
def Epoch.sub (a b : Epoch) : Option Epoch := (durSub a.off b.off).map Epoch.mk

/-- `impl Sub<Duration> for Epoch`: `Epoch(self.0 - rhs)`, panics on
underflow. -/
def Epoch.subDuration (a : Epoch) (d : Nat) : Option Epoch :=
  (durSub a.off d).map Epoch.mk

/-- `impl SubAssign for Epoch`: `self.0 -= rhs.0`; the updated value, `none`
on the underflow panic. -/
def Epoch.subAssign (a b : Epoch) : Option Epoch :=
  (durSub a.off b.off).map Epoch.mk

/-- `impl SubAssign<Duration> for Epoch`: `self.0 -= rhs`; the updated
value, `none` on the underflow panic. -/
def Epoch.subAssignDuration (a : Epoch) (d : Nat) : Option Epoch :=
  (durSub a.off d).map Epoch.mk

/-- The stopwatch state (struct `InnerClock` in src/clock.rs): the epoch
captured at creation or last reset, the start instant of the current
running interval, and the optional stop instant (present iff paused). -/
structure InnerClock where
  epoch : Epoch
  start : Nat
  stop : Option Nat
deriving DecidableEq, Repr

/-- `InnerClock::new`: captures the wall clock (`w`) as the epoch and the
monotonic source (`t`) as the start instant; created running. -/
def InnerClock.new (w : Nat) (t : Nat) : InnerClock :=
  ⟨⟨w⟩, t, none⟩

/-- `InnerClock::reset`: recaptures the wall clock (`w`) and rebases the
start instant to the current monotonic reading (`t`); clears `stop`. -/
def InnerClock.reset (c : InnerClock) (w : Nat) (t : Nat) : InnerClock :=
  ⟨⟨w⟩, t, none⟩

/-- `InnerClock::start`: rebases the start instant to the current monotonic
reading and clears `stop`. The epoch is untouched. -/
def InnerClock.startOp (c : InnerClock) (t : Nat) : InnerClock :=
  { c with start := t, stop := none }

/-- `InnerClock::resume`: if stopped, clears the stop marker and returns
`now.checked_duration_since(stop)`; otherwise returns `Some(0)` and changes
nothing. -/
def InnerClock.resume (c : InnerClock) (t : Nat) : InnerClock × Option Nat :=
  match c.stop with
  | some s => ({ c with stop := none }, checkedDurationSince t s)
  | none => (c, some 0)

/-- `InnerClock::stop`: records the current instant as the stop instant only
when not already stopped, then returns `stop.map (fun s => s - start)`. -/
def InnerClock.stopOp (c : InnerClock) (t : Nat) : InnerClock × Option Nat :=
  let c' := if c.stop.isNone then { c with stop := some t } else c
  (c', c'.stop.map (fun s => durationSince s c'.start))

/-- `InnerClock::now`: frozen `stop - start` when stopped, live
`current - start` when running. -/
def InnerClock.now (c : InnerClock) (t : Nat) : Nat :=
  match c.stop with
  | some s => durationSince s c.start
  | none => durationSince t c.start

/-- `InnerClock::is_ticking`: true iff the stop marker is absent. -/
def InnerClock.is_ticking (c : InnerClock) : Bool := c.stop.isNone

/-- The four mutating operations of the public surface. -/
inductive Op where
  | startOp
  | stopOp
  | resume
  | reset
deriving DecidableEq, Repr

/-- Apply one mutating operation, reading wall clock `w` and monotonic
instant `t` at the moment of the call (only `reset` uses `w`). -/
def applyOp (c : InnerClock) (op : Op) (w : Nat) (t : Nat) : InnerClock :=
  match op with
  | .startOp => c.startOp t
  | .stopOp => (c.stopOp t).1
  | .resume => (c.resume t).1
  | .reset => c.reset w t

/-- `Reachable t c`: state `c` arises from a freshly constructed clock by a
sequence of mutating operations whose monotonic readings are non-decreasing,
the latest reading being at most `t`. -/
inductive Reachable : Nat → InnerClock → Prop where
  | new : ∀ (w : Nat) (t : Nat), Reachable t (InnerClock.new w t)
  | step : ∀ {t : Nat} {c : InnerClock} (op : Op) (w : Nat)
      {t' : Nat}, Reachable t c → t ≤ t' → Reachable t' (applyOp c op w t')

/-- In every reachable state the start instant, and the stop instant when
present, are bounded by the latest monotonic reading, and the stop instant
never precedes the start instant. -/
theorem reachable_bounds {t : Nat} {c : InnerClock} (h : Reachable t c) :
    c.start ≤ t ∧ ∀ s : Nat, c.stop = some s → c.start ≤ s ∧ s ≤ t := by
  induction h with
  | new w t0 =>
      refine ⟨le_rfl, ?_⟩
      intro s hs
      simp [InnerClock.new] at hs
  | step op w hr hle ih =>
      rename_i t0 c0 t1
      obtain ⟨hst, hsb⟩ := ih
      cases op with
      | startOp =>
          refine ⟨le_rfl, ?_⟩
          intro s hs
          simp [applyOp, InnerClock.startOp] at hs
      | stopOp =>
          cases hc : c0.stop with
          | none =>
              constructor
              · simp [applyOp, InnerClock.stopOp, hc]
                omega
              · intro s hs
                simp [applyOp, InnerClock.stopOp, hc] at hs ⊢
                omega
          | some s0 =>
              constructor
              · simp [applyOp, InnerClock.stopOp, hc]
                omega
              · intro s hs
                simp [applyOp, InnerClock.stopOp, hc] at hs ⊢
                obtain ⟨h1, h2⟩ := hsb s0 hc
                omega
      | resume =>
          cases hc : c0.stop with
          | none =>
              constructor
              · simp [applyOp, InnerClock.resume, hc]
                omega
              · intro s hs
                simp [applyOp, InnerClock.resume, hc] at hs
          | some s0 =>
              constructor
              · simp [applyOp, InnerClock.resume, hc]
                omega
              · intro s hs
                simp [applyOp, InnerClock.resume, hc] at hs
      | reset =>
          refine ⟨le_rfl, ?_⟩
          intro s hs
          simp [applyOp, InnerClock.reset] at hs

/-- Claim C1: a clock stopped with stop instant `s` (so frozen elapsed value
`E = now = s - start`), resumed at instant `tr` after a real pause of
`P = tr - s`, yields on the next `now()` read (at any instant `tn ≥ tr`) a
value at least `E + P`: the paused interval is counted as elapsed time
because `resume` clears the stop marker without rebasing the start
instant. -/
theorem C1_resume_includes_paused_interval (c : InnerClock) (s tr tn : Nat)
    (hs : c.stop = some s) (hstart : c.start ≤ s) (h1 : s ≤ tr)
    (h2 : tr ≤ tn) :
    c.now tr + (tr - s) ≤ ((c.resume tr).1).now tn := by
  simp [InnerClock.resume, InnerClock.now, durationSince, hs]
  omega

/-- Witness for C1: clock with start 0 stopped at instant 3 (elapsed 3),
resumed at 5 (pause 2), read at 6: the read is at least 3 + 2. -/
theorem C1_witness :
    InnerClock.now ⟨⟨0⟩, 0, some 3⟩ 5 + (5 - 3) ≤
      ((InnerClock.resume ⟨⟨0⟩, 0, some 3⟩ 5).1).now 6 :=
  C1_resume_includes_paused_interval ⟨⟨0⟩, 0, some 3⟩ 3 5 6 rfl (by decide)
    (by decide) (by decide)

/-- Claim C2: after `stop()` at instant `ts` on a running clock, every subsequent
`now()` read, at any instant `t` whatsoever, returns the frozen value
`ts - start`, independent of `t`. -/
theorem C2_freeze_on_stop (c : InnerClock) (ts : Nat) (h : c.stop = none)
    (t : Nat) : ((c.stopOp ts).1).now t = durationSince ts c.start := by
  simp [InnerClock.stopOp, InnerClock.now, h]

/-- Witness for C2: a running clock with start 2 stopped at 5 and read much
later, at 100, still reads the frozen 5 - 2. -/
theorem C2_witness :
    ((InnerClock.stopOp ⟨⟨0⟩, 2, none⟩ 5).1).now 100 = durationSince 5 2 :=
  C2_freeze_on_stop ⟨⟨0⟩, 2, none⟩ 5 rfl 100

/-- Claim C3: `stop()` is idempotent: a second `stop()` at any later instant `t2`
returns the same pair (same state, same duration) as the first call at `t1`
returned; in particular the recorded stop instant does not move. -/
theorem C3_stop_idempotent (c : InnerClock) (t1 t2 : Nat) :
    ((c.stopOp t1).1).stopOp t2 = c.stopOp t1 := by
  cases hc : c.stop <;> simp [InnerClock.stopOp, hc]

/-- Claim C4: in every state reachable from a fresh clock by any sequence of
mutating operations with non-decreasing monotonic readings, a present stop
instant is at least the start instant. -/
theorem C4_stop_ge_start (t : Nat) (c : InnerClock) (h : Reachable t c)
    (s : Nat) (hs : c.stop = some s) : c.start ≤ s :=
  ((reachable_bounds h).2 s hs).1

/-- Witness for C4: the clock created at instant 0 then stopped at instant 5
has its start instant at most its stop instant. -/
theorem C4_witness :
    (applyOp (InnerClock.new 0 0) Op.stopOp 0 5).start ≤ 5 :=
  C4_stop_ge_start 5 (applyOp (InnerClock.new 0 0) Op.stopOp 0 5)
    (Reachable.step Op.stopOp 0 (Reachable.new 0 0) (by decide)) 5 rfl

/-- Claim C5: `reset` is the only mutator that changes the epoch: `start`, `stop`
and `resume` leave the epoch field unchanged, while `reset` replaces it with
the freshly captured wall-clock value `w`. -/
theorem C5_reset_only_epoch_change (c : InnerClock) (w t : Nat) :
    (c.startOp t).epoch = c.epoch ∧ ((c.stopOp t).1).epoch = c.epoch ∧
    ((c.resume t).1).epoch = c.epoch ∧ (c.reset w t).epoch = ⟨w⟩ := by
  refine ⟨rfl, ?_, ?_, rfl⟩ <;>
    cases hc : c.stop <;> simp [InnerClock.stopOp, InnerClock.resume, hc]

/-- Claim C6: `resume()` on a stopped clock clears the stop marker (leaving epoch
and start untouched) and returns now minus the recorded stop instant; on a
running clock it returns a zero duration and changes nothing. -/
theorem C6_resume_behavior (c : InnerClock) (t : Nat) :
    (∀ s : Nat, c.stop = some s → s ≤ t →
      c.resume t = ({ c with stop := none }, some (t - s))) ∧
    (c.stop = none → c.resume t = (c, some 0)) := by
  constructor
  · intro s hs hle
    simp [InnerClock.resume, hs, checkedDurationSince, hle]
  · intro h
    simp [InnerClock.resume, h]

/-- Witness for C6: resuming at instant 5 a clock stopped at instant 3
clears the marker and returns the pause duration 2. -/
theorem C6_witness :
    InnerClock.resume ⟨⟨0⟩, 0, some 3⟩ 5 = (⟨⟨0⟩, 0, none⟩, some 2) :=
  (C6_resume_behavior ⟨⟨0⟩, 0, some 3⟩ 5).1 3 rfl (by decide)

/-- Claim C7: `stop()` and `resume()` never signal failure: in every state whose
recorded stop instant (if any) is at most the current monotonic reading,
both return `Some` of a well-defined duration. -/
theorem C7_no_failure (c : InnerClock) (t : Nat)
    (hmono : ∀ s : Nat, c.stop = some s → s ≤ t) :
    ((c.stopOp t).2).isSome = true ∧ ((c.resume t).2).isSome = true := by
  cases hc : c.stop with
  | none => simp [InnerClock.stopOp, InnerClock.resume, hc]
  | some s =>
      have hle := hmono s hc
      simp [InnerClock.stopOp, InnerClock.resume, checkedDurationSince, hc,
        hle]

/-- Witness for C7: on a clock stopped at instant 3, `stop` and `resume`
at instant 5 both return `Some`. -/
theorem C7_witness :
    ((InnerClock.stopOp ⟨⟨0⟩, 0, some 3⟩ 5).2).isSome = true ∧
      ((InnerClock.resume ⟨⟨0⟩, 0, some 3⟩ 5).2).isSome = true :=
  C7_no_failure ⟨⟨0⟩, 0, some 3⟩ 5 (by intro s hs; simp at hs; omega)

/-- Claim C8: for a running clock, two successive `now()` reads at non-decreasing
monotonic instants are non-decreasing. -/
theorem C8_now_monotone (c : InnerClock) (h : c.stop = none) (t1 t2 : Nat)
    (ht : t1 ≤ t2) : c.now t1 ≤ c.now t2 := by
  simp [InnerClock.now, durationSince, h]
  omega

/-- Witness for C8: a running clock read at instants 3 then 7 gives
non-decreasing values. -/
theorem C8_witness :
    InnerClock.now ⟨⟨0⟩, 0, none⟩ 3 ≤ InnerClock.now ⟨⟨0⟩, 0, none⟩ 7 :=
  C8_now_monotone ⟨⟨0⟩, 0, none⟩ rfl 3 7 (by decide)

/-- Claim C9: Epoch subtraction (`Epoch - Epoch`, `Epoch - Duration`, and the
in-place assignment forms) panics exactly when the right operand exceeds
the left, and otherwise returns the exact difference, never a wrapped
value. -/
theorem C9_epoch_sub_underflow (a b : Epoch) (d : Nat) :
    (Epoch.sub a b = none ↔ a.off < b.off) ∧
    (b.off ≤ a.off → Epoch.sub a b = some ⟨a.off - b.off⟩) ∧
    (Epoch.subDuration a d = none ↔ a.off < d) ∧
    (d ≤ a.off → Epoch.subDuration a d = some ⟨a.off - d⟩) ∧
    Epoch.subAssign a b = Epoch.sub a b ∧
    Epoch.subAssignDuration a d = Epoch.subDuration a d := by
  unfold Epoch.sub Epoch.subDuration Epoch.subAssign Epoch.subAssignDuration
  unfold durSub
  refine ⟨?_, ?_, ?_, ?_, rfl, rfl⟩ <;> intros <;> split <;> simp <;> omega

/-- Witness for C9: 7 - 5 succeeds with the exact difference 2, while 5 - 7
underflows and panics. -/
theorem C9_witness :
    Epoch.sub ⟨7⟩ ⟨5⟩ = some ⟨2⟩ ∧ Epoch.subDuration ⟨5⟩ 7 = none :=
  ⟨(C9_epoch_sub_underflow ⟨7⟩ ⟨5⟩ 9).2.1 (by decide),
   ((C9_epoch_sub_underflow ⟨5⟩ ⟨5⟩ 7).2.2.1).mpr (by decide)⟩

/-- Claim C10: no-op mutators leave the entire state unchanged: `stop()` on an
already-stopped clock, and `resume()` on a running clock, return the state
with every field (epoch, start, stop) exactly as it was. -/
theorem C10_noop_frame (c : InnerClock) (t : Nat) :
    (∀ s : Nat, c.stop = some s → (c.stopOp t).1 = c) ∧
    (c.stop = none → (c.resume t).1 = c) := by
  constructor
  · intro s hs
    simp [InnerClock.stopOp, hs]
  · intro h
    simp [InnerClock.resume, h]

/-- Witness for C10: stopping an already-stopped clock at instant 9, and
resuming a running clock at instant 9, both leave the state untouched. -/
theorem C10_witness :
    ((InnerClock.stopOp ⟨⟨0⟩, 0, some 3⟩ 9).1 = ⟨⟨0⟩, 0, some 3⟩) ∧
      ((InnerClock.resume ⟨⟨0⟩, 0, none⟩ 9).1 = ⟨⟨0⟩, 0, none⟩) :=
  ⟨(C10_noop_frame ⟨⟨0⟩, 0, some 3⟩ 9).1 3 rfl,
   (C10_noop_frame ⟨⟨0⟩, 0, none⟩ 9).2 rfl⟩

end MonotonicClock
